import Mathlib

/-!
Shallow embedding of the auction and DKP core of the discord-dkp-bot
repository, together with theorems settling the spec claims.

Sources embedded:
  * internal/auction/auction.go — the Auction aggregate (New, PlaceBid,
    Close, Cancel, HighestBid, PendingEvents, recordEvent, Replay);
  * internal/auction (Manager) — the coordinator (PlaceBid, CloseAuction,
    ReplayAuction) which drains pending events and appends them to the
    event store, logging (and otherwise ignoring) append failures;
  * internal/dkp (Manager) — RegisterPlayer, AwardDKP, DeductDKP;
  * internal/event — Event, event types and payload structs;
  * internal/store/postgres/event.go — Load filters the stored events by
    aggregate id (an unknown id yields the empty list, not an error); the
    database stamps created_at at insert time.

Modelling conventions: Go time.Time values are integer ticks; JSON payloads
are an inductive EventData mirroring the payload structs (the zero value of
AuctionClosedData marshals as winner_id "" and amount 0); fallible writes
take an explicit success flag standing for the injected I/O outcome; the
tracer, logger and UUID columns are telemetry and are not modelled.
-/

/-- Event kinds, from internal/event (Type constants). -/
inductive EventType where
  | auctionStarted
  | auctionBidPlaced
  | auctionClosed
  | auctionCancelled
  | dkpAwarded
  | dkpDeducted
  | dkpAdjusted
  | playerRegistered
  deriving DecidableEq, Repr

/-- Event payloads, from internal/event (AuctionStartedData, BidPlacedData,
AuctionClosedData, DKPChangeData, PlayerRegisteredData; Cancel writes an
empty object). -/
inductive EventData where
  | started (itemName startedBy : String) (minBid duration : Int)
  | bidPlaced (playerID : String) (amount : Int)
  | closed (winnerID : String) (amount : Int)
  | cancelled
  | dkpChange (playerID : String) (amount : Int) (reason : String)
  | registered (discordID characterName : String)
  deriving DecidableEq, Repr

/-- A domain event, from internal/event (Event struct); the DB-generated
UUID column is omitted. createdAt is zero on emission and stamped by the
store at insert time. -/
structure Event where
  aggregateID : String
  type : EventType
  data : EventData
  version : Int
  createdAt : Int
  deriving DecidableEq, Repr

/-- A single bid, from auction.go (Bid struct). -/
structure Bid where
  playerID : String
  amount : Int
  time : Int
  deriving DecidableEq, Repr

/-- The auction aggregate, from auction.go (Auction struct); the mutex,
tracer and clock fields are not modelled. events is the pending buffer. -/
structure Auction where
  id : String
  itemName : String
  startedBy : String
  minBid : Int
  status : String
  bids : List Bid
  version : Int
  events : List Event
  deriving DecidableEq, Repr

/-- The four error values declared at the top of auction.go. -/
inductive AuctionError where
  | errAuctionClosed
  | errBidTooLow
  | errSelfOutbid
  | errInsufficientDKP
  deriving DecidableEq, Repr

/-- Auction.recordEvent: increment the version and append one event to the
pending buffer. -/
def Auction.recordEvent (a : Auction) (t : EventType) (d : EventData) : Auction :=
  { a with
    version := a.version + 1
    events := a.events ++
      [{ aggregateID := a.id, type := t, data := d,
         version := a.version + 1, createdAt := 0 }] }

/-- auction.New: a fresh open auction with one recorded started event. -/
def Auction.new (id itemName startedBy : String) (minBid duration : Int) : Auction :=
  Auction.recordEvent
    { id := id, itemName := itemName, startedBy := startedBy, minBid := minBid,
      status := "open", bids := [], version := 0, events := [] }
    .auctionStarted (.started itemName startedBy minBid duration)

/-- Auction.highestBid: the last bid, or none when there are no bids. -/
def Auction.highestBid (a : Auction) : Option Bid :=
  a.bids.getLast?

/-- The successful branch of Auction.PlaceBid: append the bid, then record
the bid-placed event. -/
def Auction.pushBid (a : Auction) (playerID : String) (amount now : Int) : Auction :=
  Auction.recordEvent
    { a with bids := a.bids ++ [{ playerID := playerID, amount := amount, time := now }] }
    .auctionBidPlaced (.bidPlaced playerID amount)

/-- Auction.PlaceBid. The guards appear in source order: status, minimum,
balance, self-outbid, outbid. The Go method mutates the receiver and
returns an error; here the (possibly unchanged) aggregate is returned
alongside the optional error. -/
def Auction.placeBid (a : Auction) (playerID : String) (amount playerDKP now : Int) :
    Auction × Option AuctionError :=
  if a.status ≠ "open" then (a, some .errAuctionClosed)
  else if amount < a.minBid then (a, some .errBidTooLow)
  else if playerDKP < amount then (a, some .errInsufficientDKP)
  else
    match a.highestBid with
    | some highest =>
      if highest.playerID = playerID then (a, some .errSelfOutbid)
      else if amount ≤ highest.amount then (a, some .errBidTooLow)
      else (a.pushBid playerID amount now, none)
    | none => (a.pushBid playerID amount now, none)

/-- Auction.Close: set status to closed, record one closed event carrying
the winner (or the zero payload when there are no bids), and return the
winner. -/
def Auction.close (a : Auction) : Auction × Option Bid × Option AuctionError :=
  if a.status ≠ "open" then (a, none, some .errAuctionClosed)
  else
    let a2 := { a with status := "closed" }
    match a2.highestBid with
    | some highest =>
        (a2.recordEvent .auctionClosed (.closed highest.playerID highest.amount),
         some highest, none)
    | none =>
        (a2.recordEvent .auctionClosed (.closed "" 0), none, none)

/-- Auction.Cancel. -/
def Auction.cancel (a : Auction) : Auction × Option AuctionError :=
  if a.status ≠ "open" then (a, some .errAuctionClosed)
  else (Auction.recordEvent { a with status := "canceled" } .auctionCancelled .cancelled,
        none)

/-- Auction.PendingEvents: return the buffered events and clear the buffer. -/
def Auction.pendingEvents (a : Auction) : List Event × Auction :=
  (a.events, { a with events := [] })

/-- One step of the Replay loop in auction.go: dispatch on the event type,
then set the version from the event. -/
def replayStep (a : Auction) (e : Event) : Auction :=
  let a2 : Auction :=
    match e.type, e.data with
    | .auctionStarted, .started item starter minBid _ =>
        { a with id := e.aggregateID, itemName := item, startedBy := starter,
                 minBid := minBid, status := "open" }
    | .auctionBidPlaced, .bidPlaced p amt =>
        { a with bids := a.bids ++ [{ playerID := p, amount := amt, time := e.createdAt }] }
    | .auctionClosed, _ => { a with status := "closed" }
    | .auctionCancelled, _ => { a with status := "canceled" }
    | _, _ => a
  { a2 with version := e.version }

/-- The zero-valued aggregate Replay starts from. -/
def emptyReplayAuction : Auction :=
  { id := "", itemName := "", startedBy := "", minBid := 0, status := "",
    bids := [], version := 0, events := [] }

/-- Replay (auction.go): error on an empty history, otherwise fold the
events over the zero aggregate. -/
def Replay (events : List Event) : Except String Auction :=
  match events with
  | [] => .error "no events to replay"
  | _ :: _ => .ok (events.foldl replayStep emptyReplayAuction)

/-- The event store stamps created_at at insert time (DB default now()). -/
def stampEvent (stamp : Int) (e : Event) : Event :=
  { e with createdAt := stamp }

/-- EventStore.Load: all events of one aggregate; an unknown aggregate
yields the empty list, not an error. -/
def loadAggregate (stored : List Event) (aggregateID : String) : List Event :=
  stored.filter (fun e => e.aggregateID == aggregateID)

/-- Manager.PlaceBid (auction coordinator): invoke the aggregate, and on
success drain the pending events and append them; an append failure is
logged and otherwise ignored (the command still returns success). -/
def managerPlaceBid (a : Auction) (stored : List Event) (playerID : String)
    (amount playerDKP now stamp : Int) (appendOk : Bool) :
    Auction × List Event × Option AuctionError :=
  match a.placeBid playerID amount playerDKP now with
  | (a2, some e) => (a2, stored, some e)
  | (a2, none) =>
    let drained := a2.pendingEvents
    if appendOk then
      (drained.2, stored ++ drained.1.map (stampEvent stamp), none)
    else
      (drained.2, stored, none)

/-- Manager.CloseAuction: invoke close, drain and append; an append failure
is logged and otherwise ignored. -/
def managerClose (a : Auction) (stored : List Event) (stamp : Int) (appendOk : Bool) :
    Auction × List Event × Option Bid × Option AuctionError :=
  match a.close with
  | (a2, w, some e) => (a2, stored, w, some e)
  | (a2, w, none) =>
    let drained := a2.pendingEvents
    if appendOk then
      (drained.2, stored ++ drained.1.map (stampEvent stamp), w, none)
    else
      (drained.2, stored, w, none)

/-- Cancellation routed through the coordinator, following the same
drain-then-append pattern as the other commands. -/
def managerCancel (a : Auction) (stored : List Event) (stamp : Int) (appendOk : Bool) :
    Auction × List Event × Option AuctionError :=
  match a.cancel with
  | (a2, some e) => (a2, stored, some e)
  | (a2, none) =>
    let drained := a2.pendingEvents
    if appendOk then
      (drained.2, stored ++ drained.1.map (stampEvent stamp), none)
    else
      (drained.2, stored, none)

/-- Manager.ReplayAuction: load the aggregate's events and replay them. -/
def replayAuction (stored : List Event) (auctionID : String) : Except String Auction :=
  Replay (loadAggregate stored auctionID)

/-- One coordinator command on a live auction. now is the aggregate clock
reading at the bid, stamp the store's insert timestamp. -/
inductive Cmd where
  | bid (playerID : String) (amount playerDKP now stamp : Int)
  | close (stamp : Int)
  | cancel (stamp : Int)
  deriving DecidableEq, Repr

/-- A coordinator holding one live aggregate together with the event store
contents for that aggregate. -/
structure Coord where
  auction : Auction
  stored : List Event
  deriving DecidableEq, Repr

/-- Dispatch one command through the coordinator (appends succeed). -/
def applyCmd (c : Coord) : Cmd → Coord
  | .bid p amt dkp now stamp =>
      let r := managerPlaceBid c.auction c.stored p amt dkp now stamp true
      { auction := r.1, stored := r.2.1 }
  | .close stamp =>
      let r := managerClose c.auction c.stored stamp true
      { auction := r.1, stored := r.2.1 }
  | .cancel stamp =>
      let r := managerCancel c.auction c.stored stamp true
      { auction := r.1, stored := r.2.1 }

/-- Parameters of the start command (Manager.StartAuction). -/
structure StartParams where
  id : String
  itemName : String
  startedBy : String
  minBid : Int
  duration : Int
  stamp : Int
  deriving DecidableEq, Repr

/-- Manager.StartAuction: create the aggregate, drain and persist its
started event. -/
def initCoord (p : StartParams) : Coord :=
  let a := Auction.new p.id p.itemName p.startedBy p.minBid p.duration
  let drained := a.pendingEvents
  { auction := drained.2, stored := drained.1.map (stampEvent p.stamp) }

/-- Run a whole command trace on a fresh aggregate. -/
def runCoord (p : StartParams) (cmds : List Cmd) : Coord :=
  cmds.foldl applyCmd (initCoord p)

/-- A player row, from internal/store (Player struct); timestamps omitted. -/
structure Player where
  id : String
  discordID : String
  characterName : String
  dkp : Int
  deriving DecidableEq, Repr

/-- PlayerRepository.UpdateDKP: add delta to the matching row; an unknown
id is an error (zero rows affected). -/
def updateDKP (players : List Player) (id : String) (delta : Int) :
    Option (List Player) :=
  if players.any (fun p => p.id == id) then
    some (players.map (fun p => if p.id == id then { p with dkp := p.dkp + delta } else p))
  else none

/-- The DKP manager's world: the player table and the event store. -/
structure DkpState where
  players : List Player
  stored : List Event
  deriving DecidableEq, Repr

/-- Manager.AwardDKP: update the balance (propagating its failure), then
append one dkp.awarded event with hard-coded version 0; an append failure
is logged and otherwise ignored. -/
def awardDKP (st : DkpState) (playerID : String) (amount : Int) (reason : String)
    (stamp : Int) (appendOk : Bool) : DkpState × Option String :=
  match updateDKP st.players playerID amount with
  | none => (st, some "awarding DKP: player not found")
  | some players2 =>
    let evt : Event :=
      { aggregateID := playerID, type := .dkpAwarded,
        data := .dkpChange playerID amount reason, version := 0, createdAt := 0 }
    if appendOk then
      ({ players := players2, stored := st.stored ++ [stampEvent stamp evt] }, none)
    else
      ({ players := players2, stored := st.stored }, none)

/-- Manager.DeductDKP: like AwardDKP with negated delta and a dkp.deducted
event, again with hard-coded version 0. -/
def deductDKP (st : DkpState) (playerID : String) (amount : Int) (reason : String)
    (stamp : Int) (appendOk : Bool) : DkpState × Option String :=
  match updateDKP st.players playerID (-amount) with
  | none => (st, some "deducting DKP: player not found")
  | some players2 =>
    let evt : Event :=
      { aggregateID := playerID, type := .dkpDeducted,
        data := .dkpChange playerID (-amount) reason, version := 0, createdAt := 0 }
    if appendOk then
      ({ players := players2, stored := st.stored ++ [stampEvent stamp evt] }, none)
    else
      ({ players := players2, stored := st.stored }, none)

/-- Manager.RegisterPlayer: insert the row (propagating its failure), then
append one player.registered event with version 1; an append failure is
logged and otherwise ignored. newID stands for the server-assigned id. -/
def registerPlayer (st : DkpState) (newID discordID characterName : String)
    (stamp : Int) (createOk appendOk : Bool) :
    DkpState × Option Player × Option String :=
  if createOk then
    let p : Player := { id := newID, discordID := discordID,
                        characterName := characterName, dkp := 0 }
    let evt : Event :=
      { aggregateID := newID, type := .playerRegistered,
        data := .registered discordID characterName, version := 1, createdAt := 0 }
    ({ players := st.players ++ [p],
       stored := if appendOk then st.stored ++ [stampEvent stamp evt] else st.stored },
     some p, none)
  else (st, none, some "creating player")

/-- The versions of a list of events, in storage order. -/
def versions (es : List Event) : List Int :=
  es.map Event.version

/-- The contiguous version list 1, 2, …, n. -/
def iota1 : Nat → List Int
  | 0 => []
  | n + 1 => iota1 n ++ [(n : Int) + 1]

/-- The (player, amount) payload of a bid-placed event, none otherwise. -/
def bidPair (e : Event) : Option (String × Int) :=
  match e.type, e.data with
  | .auctionBidPlaced, .bidPlaced p amt => some (p, amt)
  | _, _ => none

/-- The bid-placed payloads of a stored stream, in storage order. -/
def bidPairs (es : List Event) : List (String × Int) :=
  es.filterMap bidPair

/-- A bid stripped of its timestamp. -/
def bidKey (b : Bid) : String × Int :=
  (b.playerID, b.amount)

/-- Agreement of a replayed aggregate with the live one on every field the
spec enumerates, with bids compared modulo their timestamps. -/
def MatchesModTime (r a : Auction) : Prop :=
  r.id = a.id ∧ r.itemName = a.itemName ∧ r.startedBy = a.startedBy ∧
  r.minBid = a.minBid ∧ r.status = a.status ∧ r.version = a.version ∧
  r.bids.map bidKey = a.bids.map bidKey

instance (r a : Auction) : Decidable (MatchesModTime r a) := by
  unfold MatchesModTime; infer_instance

/-- The coordinator invariant maintained by every command trace. -/
structure CoordInv (c : Coord) : Prop where
  drained : c.auction.events = []
  vcount : c.auction.version = (c.stored.length : Int)
  contig : versions c.stored = iota1 c.stored.length
  nonempty : c.stored ≠ []
  replayOk : ∃ r, Replay c.stored = Except.ok r ∧ MatchesModTime r c.auction
  pairsEq : bidPairs c.stored = c.auction.bids.map bidKey
  mono : List.Chain' (· < ·) (c.auction.bids.map Bid.amount)

/-- A concrete start command used by the witness scenarios. -/
def spX : StartParams :=
  { id := "a1", itemName := "Sword", startedBy := "gm", minBid := 10,
    duration := 300, stamp := 1 }

/-- Start an auction and have p1 bid 50 at clock tick 5; the store stamps
the bid event at tick 7. -/
def cexRun : Coord :=
  runCoord spX [Cmd.bid "p1" 50 100 5 7]

/-- The freshly started auction together with its stored event. -/
def cexStart : Coord :=
  initCoord spX

/-- Coordinator PlaceBid against cexStart when the event append fails. -/
def cexBidNoAppend : Auction × List Event × Option AuctionError :=
  managerPlaceBid cexStart.auction cexStart.stored "p1" 50 100 5 7 false

/-- An open auction that already carries a bid of 20 by p1. -/
def cexOutbid : Auction :=
  ((Auction.new "a1" "Sword" "gm" 10 300).placeBid "p1" 20 100 0).1

/-- An empty DKP world. -/
def dkpStart : DkpState :=
  { players := [], stored := [] }

/-- Register one player (all writes succeed). -/
def dkpReg : DkpState :=
  (registerPlayer dkpStart "pid1" "d1" "Gandalf" 1 true true).1

/-- Award 50 DKP to the registered player (all writes succeed). -/
def dkpAward1 : DkpState :=
  (awardDKP dkpReg "pid1" 50 "raid attendance" 2 true).1

/-- Award another 30 DKP to the same player (all writes succeed). -/
def dkpAward2 : DkpState :=
  (awardDKP dkpAward1 "pid1" 30 "boss kill" 3 true).1

/-- A one-player DKP world used by the award-failure scenario. -/
def dkpOnePlayer : DkpState :=
  { players := [{ id := "pid1", discordID := "d1", characterName := "Gandalf", dkp := 10 }],
    stored := [] }

/-- Guard analysis of PlaceBid: either a guard rejects the bid and the
aggregate is returned unchanged with some error, or the auction is open,
the bid strictly exceeds the last bid (when one exists), and the bid is
appended. -/
theorem placeBid_shape (a : Auction) (p : String) (amt dkp now : Int) :
    (∃ e, a.placeBid p amt dkp now = (a, some e)) ∨
    (a.placeBid p amt dkp now = (a.pushBid p amt now, none) ∧ a.status = "open" ∧
      ∀ b, a.bids.getLast? = some b → b.amount < amt) := by
  by_cases h1 : a.status = "open"
  case neg => exact Or.inl ⟨.errAuctionClosed, by simp [Auction.placeBid, h1]⟩
  by_cases h2 : amt < a.minBid
  · exact Or.inl ⟨.errBidTooLow, by simp [Auction.placeBid, h1, h2]⟩
  by_cases h3 : dkp < amt
  · exact Or.inl ⟨.errInsufficientDKP, by simp [Auction.placeBid, h1, h2, h3]⟩
  rcases hl : a.bids.getLast? with _ | hi
  · refine Or.inr ⟨by simp [Auction.placeBid, Auction.highestBid, h1, h2, h3, hl], h1, ?_⟩
    intro b hb
    simp [hl] at hb
  · by_cases h4 : hi.playerID = p
    · exact Or.inl ⟨.errSelfOutbid,
        by simp [Auction.placeBid, Auction.highestBid, h1, h2, h3, hl, h4]⟩
    by_cases h5 : amt ≤ hi.amount
    · exact Or.inl ⟨.errBidTooLow,
        by simp [Auction.placeBid, Auction.highestBid, h1, h2, h3, hl, h4, h5]⟩
    · refine Or.inr
        ⟨by simp [Auction.placeBid, Auction.highestBid, h1, h2, h3, hl, h4, h5], h1, ?_⟩
      intro b hb
      cases Option.some.inj hb
      omega

/-- Guard analysis of Close. -/
theorem close_shape (a : Auction) :
    (a.status ≠ "open" ∧ a.close = (a, none, some .errAuctionClosed)) ∨
    (a.status = "open" ∧
      a.close = (Auction.recordEvent { a with status := "closed" } .auctionClosed
          (match a.bids.getLast? with
           | some hi => EventData.closed hi.playerID hi.amount
           | none => EventData.closed "" 0),
        a.bids.getLast?, none)) := by
  by_cases h : a.status = "open"
  case neg => exact Or.inl ⟨h, by simp [Auction.close, h]⟩
  refine Or.inr ⟨h, ?_⟩
  rcases hl : a.bids.getLast? with _ | hi <;>
    simp [Auction.close, Auction.highestBid, h, hl]

/-- Guard analysis of Cancel. -/
theorem cancel_shape (a : Auction) :
    (a.status ≠ "open" ∧ a.cancel = (a, some .errAuctionClosed)) ∨
    (a.status = "open" ∧
      a.cancel = (Auction.recordEvent { a with status := "canceled" }
        .auctionCancelled .cancelled, none)) := by
  by_cases h : a.status = "open"
  case neg => exact Or.inl ⟨h, by simp [Auction.cancel, h]⟩
  exact Or.inr ⟨h, by simp [Auction.cancel, h]⟩

/-- Replaying a history extended by one event replays the prefix and then
applies the step function once. -/
theorem replay_append (es : List Event) (e : Event) (r : Auction)
    (h : Replay es = Except.ok r) :
    Replay (es ++ [e]) = Except.ok (replayStep r e) := by
  cases es with
  | nil => simp [Replay] at h
  | cons x xs =>
    have h2 : List.foldl replayStep emptyReplayAuction (x :: xs) = r := by
      simpa [Replay] using h
    show Except.ok (List.foldl replayStep emptyReplayAuction ((x :: xs) ++ [e])) =
      Except.ok (replayStep r e)
    rw [List.foldl_append, h2]
    rfl

/-- Unfolding lemma for the contiguous version list. -/
theorem iota1_succ (n : Nat) : iota1 (n + 1) = iota1 n ++ [(n : Int) + 1] := rfl

/-- In a strictly increasing list, the last element bounds every element. -/
theorem chain_lt_last_le {l : List Int} (h : List.Chain' (· < ·) l) :
    ∀ x ∈ l, ∀ y, l.getLast? = some y → x ≤ y := by
  induction l with
  | nil => simp
  | cons a t ih =>
    cases t with
    | nil =>
      intro x hx y hy
      simp at hx hy
      omega
    | cons b t2 =>
      rw [List.chain'_cons] at h
      intro x hx y hy
      rw [List.getLast?_cons_cons] at hy
      have hb : b ≤ y := ih h.2 b (by simp) y hy
      rcases List.mem_cons.1 hx with rfl | hx2
      · omega
      · exact ih h.2 x hx2 y hy

/-- Coordinator PlaceBid on an accepted bid, with a drained buffer and a
successful append: the bid and the stamped event land in place. -/
theorem manager_bid_ok (a : Auction) (st : List Event) (p : String) (amt dkp now stamp : Int)
    (hdr : a.events = [])
    (heq : a.placeBid p amt dkp now = (a.pushBid p amt now, none)) :
    managerPlaceBid a st p amt dkp now stamp true =
      ({ a with bids := a.bids ++ [{ playerID := p, amount := amt, time := now }],
                version := a.version + 1, events := [] },
       st ++ [{ aggregateID := a.id, type := .auctionBidPlaced,
                data := .bidPlaced p amt, version := a.version + 1, createdAt := stamp }],
       none) := by
  simp [managerPlaceBid, heq, Auction.pushBid, Auction.recordEvent, Auction.pendingEvents,
    hdr, stampEvent]

/-- Coordinator PlaceBid on a rejected bid returns everything unchanged. -/
theorem manager_bid_err (a : Auction) (st : List Event) (p : String)
    (amt dkp now stamp : Int) (e : AuctionError) (appendOk : Bool)
    (heq : a.placeBid p amt dkp now = (a, some e)) :
    managerPlaceBid a st p amt dkp now stamp appendOk = (a, st, some e) := by
  simp [managerPlaceBid, heq]

/-- Coordinator CloseAuction on an open auction with a drained buffer and a
successful append. -/
theorem manager_close_ok (a : Auction) (st : List Event) (stamp : Int) (d : EventData)
    (hdr : a.events = [])
    (heq : a.close = (Auction.recordEvent { a with status := "closed" } .auctionClosed d,
      a.bids.getLast?, none)) :
    managerClose a st stamp true =
      ({ a with status := "closed", version := a.version + 1, events := [] },
       st ++ [{ aggregateID := a.id, type := .auctionClosed, data := d,
                version := a.version + 1, createdAt := stamp }],
       a.bids.getLast?, none) := by
  simp [managerClose, heq, Auction.recordEvent, Auction.pendingEvents, hdr, stampEvent]

/-- Coordinator CloseAuction on a terminal auction returns everything
unchanged. -/
theorem manager_close_err (a : Auction) (st : List Event) (stamp : Int) (appendOk : Bool)
    (heq : a.close = (a, none, some .errAuctionClosed)) :
    managerClose a st stamp appendOk = (a, st, none, some .errAuctionClosed) := by
  simp [managerClose, heq]

/-- Coordinator cancellation on an open auction with a drained buffer and a
successful append. -/
theorem manager_cancel_ok (a : Auction) (st : List Event) (stamp : Int)
    (hdr : a.events = [])
    (heq : a.cancel = (Auction.recordEvent { a with status := "canceled" }
      .auctionCancelled .cancelled, none)) :
    managerCancel a st stamp true =
      ({ a with status := "canceled", version := a.version + 1, events := [] },
       st ++ [{ aggregateID := a.id, type := .auctionCancelled, data := .cancelled,
                version := a.version + 1, createdAt := stamp }],
       none) := by
  simp [managerCancel, heq, Auction.recordEvent, Auction.pendingEvents, hdr, stampEvent]

/-- Coordinator cancellation on a terminal auction returns everything
unchanged. -/
theorem manager_cancel_err (a : Auction) (st : List Event) (stamp : Int) (appendOk : Bool)
    (heq : a.cancel = (a, some .errAuctionClosed)) :
    managerCancel a st stamp appendOk = (a, st, some .errAuctionClosed) := by
  simp [managerCancel, heq]

/-- Replaying one bid-placed event appends the bid with the stored
timestamp and adopts the event version. -/
theorem replayStep_bid_placed (r : Auction) (aggID p : String) (amt v s : Int) :
    replayStep r { aggregateID := aggID, type := .auctionBidPlaced,
                   data := .bidPlaced p amt, version := v, createdAt := s } =
      { r with bids := r.bids ++ [{ playerID := p, amount := amt, time := s }],
               version := v } := rfl

/-- Replaying one started event installs the header fields. -/
theorem replayStep_started (r : Auction) (aggID item starter : String) (mb du v s : Int) :
    replayStep r { aggregateID := aggID, type := .auctionStarted,
                   data := .started item starter mb du, version := v, createdAt := s } =
      { r with id := aggID, itemName := item, startedBy := starter, minBid := mb,
               status := "open", version := v } := rfl

/-- Replaying one closed event only changes status and version. -/
theorem replayStep_closed (r : Auction) (aggID : String) (d : EventData) (v s : Int) :
    replayStep r { aggregateID := aggID, type := .auctionClosed, data := d,
                   version := v, createdAt := s } =
      { r with status := "closed", version := v } := by
  cases d <;> rfl

/-- Replaying one cancelled event only changes status and version. -/
theorem replayStep_cancelled (r : Auction) (aggID : String) (d : EventData) (v s : Int) :
    replayStep r { aggregateID := aggID, type := .auctionCancelled, data := d,
                   version := v, createdAt := s } =
      { r with status := "canceled", version := v } := by
  cases d <;> rfl

/-- Appending an element strictly above the last entry preserves strict
increase. -/
theorem chain_lt_snoc {l : List Int} {y : Int} (h : List.Chain' (· < ·) l)
    (hy : ∀ x, l.getLast? = some x → x < y) :
    List.Chain' (· < ·) (l ++ [y]) := by
  rw [List.chain'_append]
  refine ⟨h, List.chain'_singleton y, ?_⟩
  intro x hx z hz
  rw [Option.mem_def] at hx hz
  simp only [List.head?_cons, Option.some.injEq] at hz
  cases hz
  exact hy x hx


/-- Versions of an extended store. -/
theorem versions_append (es fs : List Event) :
    versions (es ++ fs) = versions es ++ versions fs := by
  simp [versions]

/-- Bid payloads of an extended store. -/
theorem bidPairs_append (es fs : List Event) :
    bidPairs (es ++ fs) = bidPairs es ++ bidPairs fs := by
  simp [bidPairs]

/-- A closed event never contributes a bid payload. -/
theorem bidPair_closed (aggID : String) (d : EventData) (v s : Int) :
    bidPair { aggregateID := aggID, type := .auctionClosed, data := d,
              version := v, createdAt := s } = none := by
  cases d <;> rfl

/-- A cancelled event never contributes a bid payload. -/
theorem bidPair_cancelled (aggID : String) (d : EventData) (v s : Int) :
    bidPair { aggregateID := aggID, type := .auctionCancelled, data := d,
              version := v, createdAt := s } = none := by
  cases d <;> rfl

/-- The coordinator invariant holds after the start command. -/
theorem initCoord_inv (p : StartParams) : CoordInv (initCoord p) := by
  refine ⟨rfl, rfl, rfl, by simp [initCoord, Auction.new, Auction.recordEvent,
    Auction.pendingEvents], ?_, rfl, List.chain'_nil⟩
  refine ⟨_, rfl, ?_⟩
  exact ⟨rfl, rfl, rfl, rfl, rfl, rfl, rfl⟩

/-- One coordinator command preserves the invariant. -/
theorem applyCmd_inv {c : Coord} (hc : CoordInv c) (cmd : Cmd) :
    CoordInv (applyCmd c cmd) := by
  obtain ⟨a, st⟩ := c
  obtain ⟨hdr, hvc, hct, hne, ⟨r, hr, hm⟩, hpair, hmono⟩ := hc
  obtain ⟨hmid, hmitem, hmstart, hmmin, hmstat, hmver, hmbids⟩ := hm
  dsimp only at hdr hvc hct hne hr hmid hmitem hmstart hmmin hmstat hmver hmbids hpair hmono
  cases cmd with
  | bid p amt dkp now stamp =>
    rcases placeBid_shape a p amt dkp now with ⟨e, heq⟩ | ⟨heq, hopen, hguard⟩
    · simp only [applyCmd, manager_bid_err a st p amt dkp now stamp e true heq]
      exact ⟨hdr, hvc, hct, hne, ⟨r, hr, hmid, hmitem, hmstart, hmmin, hmstat, hmver,
        hmbids⟩, hpair, hmono⟩
    · simp only [applyCmd, manager_bid_ok a st p amt dkp now stamp hdr heq]
      refine ⟨rfl, ?_, ?_, by simp, ?_, ?_, ?_⟩
      · dsimp only
        rw [hvc]
        simp
      · dsimp only
        rw [versions_append, hct, hvc, List.length_append]
        simp [versions, iota1_succ]
      · refine ⟨_, replay_append st _ r hr, ?_⟩
        show MatchesModTime (replayStep r _) _
        rw [replayStep_bid_placed]
        exact ⟨hmid, hmitem, hmstart, hmmin, hmstat, rfl,
          by dsimp only; simp [hmbids, bidKey]⟩
      · dsimp only
        rw [bidPairs_append, hpair]
        simp [bidPairs, bidPair, bidKey]
      · dsimp only
        simp only [List.map_append]
        refine chain_lt_snoc hmono ?_
        intro x hx
        rw [List.getLast?_map] at hx
        rcases hlast : a.bids.getLast? with _ | b
        · rw [hlast] at hx
          cases hx
        · rw [hlast] at hx
          cases Option.some.inj hx
          exact hguard b hlast
  | close stamp =>
    rcases close_shape a with ⟨hterm, heq⟩ | ⟨hopen, heq⟩
    · simp only [applyCmd, manager_close_err a st stamp true heq]
      exact ⟨hdr, hvc, hct, hne, ⟨r, hr, hmid, hmitem, hmstart, hmmin, hmstat, hmver,
        hmbids⟩, hpair, hmono⟩
    · simp only [applyCmd, manager_close_ok a st stamp _ hdr heq]
      refine ⟨rfl, ?_, ?_, by simp, ?_, ?_, ?_⟩
      · dsimp only
        rw [hvc]
        simp
      · dsimp only
        rw [versions_append, hct, hvc, List.length_append]
        simp [versions, iota1_succ]
      · refine ⟨_, replay_append st _ r hr, ?_⟩
        show MatchesModTime (replayStep r _) _
        rw [replayStep_closed]
        exact ⟨hmid, hmitem, hmstart, hmmin, rfl, rfl, hmbids⟩
      · dsimp only
        rw [bidPairs_append, hpair]
        simp [bidPairs, bidPair_closed]
      · exact hmono
  | cancel stamp =>
    rcases cancel_shape a with ⟨hterm, heq⟩ | ⟨hopen, heq⟩
    · simp only [applyCmd, manager_cancel_err a st stamp true heq]
      exact ⟨hdr, hvc, hct, hne, ⟨r, hr, hmid, hmitem, hmstart, hmmin, hmstat, hmver,
        hmbids⟩, hpair, hmono⟩
    · simp only [applyCmd, manager_cancel_ok a st stamp hdr heq]
      refine ⟨rfl, ?_, ?_, by simp, ?_, ?_, ?_⟩
      · dsimp only
        rw [hvc]
        simp
      · dsimp only
        rw [versions_append, hct, hvc, List.length_append]
        simp [versions, iota1_succ]
      · refine ⟨_, replay_append st _ r hr, ?_⟩
        show MatchesModTime (replayStep r _) _
        rw [replayStep_cancelled]
        exact ⟨hmid, hmitem, hmstart, hmmin, rfl, rfl, hmbids⟩
      · dsimp only
        rw [bidPairs_append, hpair]
        simp [bidPairs, bidPair_cancelled]
      · exact hmono

/-- The invariant holds after every command trace. -/
theorem runCoord_inv (p : StartParams) (cmds : List Cmd) : CoordInv (runCoord p cmds) := by
  unfold runCoord
  induction cmds using List.reverseRecOn with
  | nil => exact initCoord_inv p
  | append_singleton xs x ih =>
    rw [List.foldl_append]
    exact applyCmd_inv ih x

/-- One command extends the event store and the bid list. -/
theorem applyCmd_extends {c : Coord} (hdr : c.auction.events = []) (cmd : Cmd) :
    (∃ s, (applyCmd c cmd).stored = c.stored ++ s) ∧
    (∃ t, (applyCmd c cmd).auction.bids = c.auction.bids ++ t) := by
  obtain ⟨a, st⟩ := c
  dsimp only at hdr
  cases cmd with
  | bid p amt dkp now stamp =>
    rcases placeBid_shape a p amt dkp now with ⟨e, heq⟩ | ⟨heq, hopen, hguard⟩
    · simp only [applyCmd, manager_bid_err a st p amt dkp now stamp e true heq]
      exact ⟨⟨[], by simp⟩, ⟨[], by simp⟩⟩
    · simp only [applyCmd, manager_bid_ok a st p amt dkp now stamp hdr heq]
      exact ⟨⟨_, rfl⟩, ⟨_, rfl⟩⟩
  | close stamp =>
    rcases close_shape a with ⟨hterm, heq⟩ | ⟨hopen, heq⟩
    · simp only [applyCmd, manager_close_err a st stamp true heq]
      exact ⟨⟨[], by simp⟩, ⟨[], by simp⟩⟩
    · simp only [applyCmd, manager_close_ok a st stamp _ hdr heq]
      exact ⟨⟨_, rfl⟩, ⟨[], by simp⟩⟩
  | cancel stamp =>
    rcases cancel_shape a with ⟨hterm, heq⟩ | ⟨hopen, heq⟩
    · simp only [applyCmd, manager_cancel_err a st stamp true heq]
      exact ⟨⟨[], by simp⟩, ⟨[], by simp⟩⟩
    · simp only [applyCmd, manager_cancel_ok a st stamp hdr heq]
      exact ⟨⟨_, rfl⟩, ⟨[], by simp⟩⟩

/-- A command suffix only ever extends the store and the bid list. -/
theorem foldl_extends (more : List Cmd) : ∀ c : Coord, CoordInv c →
    (∃ s, (more.foldl applyCmd c).stored = c.stored ++ s) ∧
    (∃ t, (more.foldl applyCmd c).auction.bids = c.auction.bids ++ t) := by
  induction more with
  | nil =>
    intro c _
    exact ⟨⟨[], by simp⟩, ⟨[], by simp⟩⟩
  | cons x xs ih =>
    intro c hc
    obtain ⟨⟨s1, hs1⟩, ⟨t1, ht1⟩⟩ := applyCmd_extends hc.drained x
    obtain ⟨⟨s2, hs2⟩, ⟨t2, ht2⟩⟩ := ih (applyCmd c x) (applyCmd_inv hc x)
    refine ⟨⟨s1 ++ s2, ?_⟩, ⟨t1 ++ t2, ?_⟩⟩
    · rw [List.foldl_cons, hs2, hs1, List.append_assoc]
    · rw [List.foldl_cons, ht2, ht1, List.append_assoc]

/-- On a terminal auction with a drained buffer every command is a no-op
for the coordinator. -/
theorem applyCmd_terminal {c : Coord} (hdr : c.auction.events = [])
    (hterm : c.auction.status ≠ "open") (cmd : Cmd) : applyCmd c cmd = c := by
  obtain ⟨a, st⟩ := c
  dsimp only at hdr hterm
  cases cmd with
  | bid p amt dkp now stamp =>
    have heq : a.placeBid p amt dkp now = (a, some .errAuctionClosed) := by
      simp [Auction.placeBid, hterm]
    simp only [applyCmd, manager_bid_err a st p amt dkp now stamp _ true heq]
  | close stamp =>
    have heq : a.close = (a, none, some .errAuctionClosed) := by
      simp [Auction.close, hterm]
    simp only [applyCmd, manager_close_err a st stamp true heq]
  | cancel stamp =>
    have heq : a.cancel = (a, some .errAuctionClosed) := by
      simp [Auction.cancel, hterm]
    simp only [applyCmd, manager_cancel_err a st stamp true heq]

/-- Once terminal (with drained buffer), any command suffix is a no-op. -/
theorem foldl_terminal {c : Coord} (hdr : c.auction.events = [])
    (hterm : c.auction.status ≠ "open") :
    ∀ more : List Cmd, more.foldl applyCmd c = c := by
  intro more
  induction more with
  | nil => rfl
  | cons x xs ih =>
    rw [List.foldl_cons, applyCmd_terminal hdr hterm x]
    exact ih

/-- Running an extended trace continues from the shorter trace's state. -/
theorem runCoord_append (p : StartParams) (cmds more : List Cmd) :
    runCoord p (cmds ++ more) = more.foldl applyCmd (runCoord p cmds) := by
  unfold runCoord
  rw [List.foldl_append]

/-- C1: on an open auction, PlaceBid succeeds iff the amount reaches the
minimum, does not exceed the bidder's balance, and either there is no bid
yet or the amount strictly exceeds the last bid's amount and the bidder is
not the last bidder; on success exactly the one bid is appended and the
version increases by one, and on failure the aggregate is unchanged. -/
theorem placeBid_success_iff (a : Auction) (p : String) (amt dkp now : Int)
    (hopen : a.status = "open") :
    ((a.placeBid p amt dkp now).2 = none ↔
      a.minBid ≤ amt ∧ amt ≤ dkp ∧
        (a.bids = [] ∨ ∃ b, a.bids.getLast? = some b ∧ b.amount < amt ∧ b.playerID ≠ p)) ∧
    ((a.placeBid p amt dkp now).2 = none →
      (a.placeBid p amt dkp now).1.bids =
        a.bids ++ [{ playerID := p, amount := amt, time := now }] ∧
      (a.placeBid p amt dkp now).1.version = a.version + 1) ∧
    ((a.placeBid p amt dkp now).2 ≠ none → (a.placeBid p amt dkp now).1 = a) := by
  by_cases h2 : amt < a.minBid
  · have hres : a.placeBid p amt dkp now = (a, some .errBidTooLow) := by
      simp [Auction.placeBid, hopen, h2]
    rw [hres]
    refine ⟨?_, ?_, ?_⟩
    · simp only [Prod.snd]
      constructor
      · intro h
        cases h
      · rintro ⟨hmin, -⟩
        omega
    · intro h
      simp at h
    · intro _
      rfl
  by_cases h3 : dkp < amt
  · have hres : a.placeBid p amt dkp now = (a, some .errInsufficientDKP) := by
      simp [Auction.placeBid, hopen, h2, h3]
    rw [hres]
    refine ⟨?_, ?_, ?_⟩
    · constructor
      · intro h
        cases h
      · rintro ⟨-, hdkp, -⟩
        omega
    · intro h
      simp at h
    · intro _
      rfl
  rcases hl : a.bids.getLast? with _ | hi
  · have hres : a.placeBid p amt dkp now = (a.pushBid p amt now, none) := by
      simp [Auction.placeBid, Auction.highestBid, hopen, h2, h3, hl]
    rw [hres]
    refine ⟨?_, ?_, ?_⟩
    · constructor
      · intro _
        exact ⟨by omega, by omega, Or.inl (List.getLast?_eq_none_iff.mp hl)⟩
      · intro _
        rfl
    · intro _
      constructor
      · simp [Auction.pushBid, Auction.recordEvent]
      · simp [Auction.pushBid, Auction.recordEvent]
    · intro h
      exact absurd rfl h
  · by_cases h4 : hi.playerID = p
    · have hres : a.placeBid p amt dkp now = (a, some .errSelfOutbid) := by
        simp [Auction.placeBid, Auction.highestBid, hopen, h2, h3, hl, h4]
      rw [hres]
      refine ⟨?_, ?_, ?_⟩
      · constructor
        · intro h
          cases h
        · rintro ⟨-, -, hempty | ⟨b, hb, -, hbp⟩⟩
          · simp [hempty] at hl
          · cases Option.some.inj hb
            exact absurd h4 hbp
      · intro h
        simp at h
      · intro _
        rfl
    by_cases h5 : amt ≤ hi.amount
    · have hres : a.placeBid p amt dkp now = (a, some .errBidTooLow) := by
        simp [Auction.placeBid, Auction.highestBid, hopen, h2, h3, hl, h4, h5]
      rw [hres]
      refine ⟨?_, ?_, ?_⟩
      · constructor
        · intro h
          cases h
        · rintro ⟨-, -, hempty | ⟨b, hb, hblt, -⟩⟩
          · simp [hempty] at hl
          · cases Option.some.inj hb
            omega
      · intro h
        simp at h
      · intro _
        rfl
    · have hres : a.placeBid p amt dkp now = (a.pushBid p amt now, none) := by
        simp [Auction.placeBid, Auction.highestBid, hopen, h2, h3, hl, h4, h5]
      rw [hres]
      refine ⟨?_, ?_, ?_⟩
      · constructor
        · intro _
          exact ⟨by omega, by omega, Or.inr ⟨hi, rfl, by omega, h4⟩⟩
        · intro _
          rfl
      · intro _
        constructor
        · simp [Auction.pushBid, Auction.recordEvent]
        · simp [Auction.pushBid, Auction.recordEvent]
      · intro h
        exact absurd rfl h

/-- C1 witness: a first bid of 50 with balance 100 on a fresh auction with
minimum 10 is accepted and appended at version 2. -/
theorem placeBid_success_iff_witness :
    ((Auction.new "a1" "Sword" "gm" 10 300).placeBid "p1" 50 100 5).1.bids =
      [{ playerID := "p1", amount := 50, time := 5 }] ∧
    ((Auction.new "a1" "Sword" "gm" 10 300).placeBid "p1" 50 100 5).1.version = 2 := by
  have h := placeBid_success_iff (Auction.new "a1" "Sword" "gm" 10 300) "p1" 50 100 5 rfl
  have hnone : ((Auction.new "a1" "Sword" "gm" 10 300).placeBid "p1" 50 100 5).2 = none := by
    decide
  obtain ⟨hbids, hver⟩ := h.2.1 hnone
  constructor
  · rw [hbids]
    rfl
  · rw [hver]
    rfl

/-- C7: closing an open auction sets status closed, returns the last bid
as winner (none when there are no bids), and emits exactly one closed
event carrying the winner's player id and amount when a winner exists
(and the zero payload otherwise). -/
theorem close_spec (a : Auction) (hopen : a.status = "open") :
    (a.close).1.status = "closed" ∧
    (a.close).2.1 = a.bids.getLast? ∧
    (a.close).2.2 = none ∧
    (a.close).1.bids = a.bids ∧
    (a.close).1.version = a.version + 1 ∧
    (a.close).1.events = a.events ++
      [{ aggregateID := a.id, type := .auctionClosed,
         data := match a.bids.getLast? with
                 | some hi => EventData.closed hi.playerID hi.amount
                 | none => EventData.closed "" 0,
         version := a.version + 1, createdAt := 0 }] := by
  rcases close_shape a with ⟨hterm, -⟩ | ⟨-, heq⟩
  · exact absurd hopen hterm
  · rw [heq]
    exact ⟨rfl, rfl, rfl, rfl, rfl, rfl⟩

/-- C7 witness: closing the auction that carries the single bid (p1, 50)
reports (p1, 50) as winner and records the closed event at version 3. -/
theorem close_spec_witness :
    (cexRun.auction.close).2.1 = some { playerID := "p1", amount := 50, time := 5 } ∧
    (cexRun.auction.close).1.status = "closed" ∧
    (cexRun.auction.close).1.events.map Event.type = [EventType.auctionClosed] := by
  have h := close_spec cexRun.auction (by decide)
  refine ⟨?_, h.1, ?_⟩
  · rw [h.2.1]
    decide
  · rw [h.2.2.2.2.2]
    decide

/-- C2 counterexample: after one accepted bid, replaying the stored events
reproduces the id, item, starter, minimum, status and version, but the
bids sequence is not reproduced bit-for-bit: the live bid carries the
clock time of the bid while the replayed bid carries the event's stored
creation timestamp. -/
theorem replay_not_bitwise_equal :
    (Replay cexRun.stored).toOption.map Auction.id = some cexRun.auction.id ∧
    (Replay cexRun.stored).toOption.map Auction.status = some cexRun.auction.status ∧
    (Replay cexRun.stored).toOption.map Auction.version = some cexRun.auction.version ∧
    (Replay cexRun.stored).toOption.map Auction.bids ≠ some cexRun.auction.bids := by
  decide

/-- C2 (amended): replaying the events emitted by any command trace on a
fresh aggregate reproduces the live state's id, item name, starter,
minimum bid, status, version, and the bids' players and amounts in order;
bid timestamps are not reproduced (the live bid carries the aggregate
clock reading, the replayed bid the event's stored creation time). -/
theorem replay_equivalence (p : StartParams) (cmds : List Cmd) :
    ∃ r, Replay (runCoord p cmds).stored = Except.ok r ∧
      MatchesModTime r (runCoord p cmds).auction :=
  (runCoord_inv p cmds).replayOk

/-- C6: along every command trace the live bid amounts strictly increase,
the amounts carried by the stored bid-placed events strictly increase in
storage (= version) order, the store and the bids sequence are append-only
under trace extension, and the last bid carries the maximum amount. -/
theorem bid_monotonicity (p : StartParams) (cmds more : List Cmd) :
    List.Chain' (· < ·) ((runCoord p cmds).auction.bids.map Bid.amount) ∧
    List.Chain' (· < ·) ((bidPairs (runCoord p cmds).stored).map Prod.snd) ∧
    (∃ s, (runCoord p (cmds ++ more)).stored = (runCoord p cmds).stored ++ s) ∧
    (∃ t, (runCoord p (cmds ++ more)).auction.bids = (runCoord p cmds).auction.bids ++ t) ∧
    (∀ b ∈ (runCoord p cmds).auction.bids, ∀ l,
      (runCoord p cmds).auction.bids.getLast? = some l → b.amount ≤ l.amount) := by
  have hinv := runCoord_inv p cmds
  refine ⟨hinv.mono, ?_, ?_, ?_, ?_⟩
  · rw [hinv.pairsEq]
    have hmm : List.map Prod.snd (List.map bidKey (runCoord p cmds).auction.bids) =
        List.map Bid.amount (runCoord p cmds).auction.bids := by
      rw [List.map_map]
      rfl
    rw [hmm]
    exact hinv.mono
  · rw [runCoord_append]
    exact (foldl_extends more _ hinv).1
  · rw [runCoord_append]
    exact (foldl_extends more _ hinv).2
  · intro b hb l hl
    refine chain_lt_last_le hinv.mono b.amount (List.mem_map_of_mem Bid.amount hb)
      l.amount ?_
    rw [List.getLast?_map, hl]
    rfl

/-- C8: once the live auction is terminal, any further command trace is a
no-op for the coordinator (no event is ever appended again) and each of
the three aggregate commands fails with the terminal error leaving the
aggregate unchanged. -/
theorem terminal_closure (p : StartParams) (cmds more : List Cmd)
    (hterm : (runCoord p cmds).auction.status ≠ "open") :
    runCoord p (cmds ++ more) = runCoord p cmds ∧
    (∀ q amt dkp now, (runCoord p cmds).auction.placeBid q amt dkp now =
      ((runCoord p cmds).auction, some .errAuctionClosed)) ∧
    (runCoord p cmds).auction.close =
      ((runCoord p cmds).auction, none, some .errAuctionClosed) ∧
    (runCoord p cmds).auction.cancel =
      ((runCoord p cmds).auction, some .errAuctionClosed) := by
  have hinv := runCoord_inv p cmds
  refine ⟨?_, ?_, ?_, ?_⟩
  · rw [runCoord_append]
    exact foldl_terminal hinv.drained hterm more
  · intro q amt dkp now
    simp [Auction.placeBid, hterm]
  · simp [Auction.close, hterm]
  · simp [Auction.cancel, hterm]

/-- C8 witness: after closing, a later bid command changes nothing and a
direct bid on the aggregate fails with the terminal error. -/
theorem terminal_closure_witness :
    (runCoord spX [Cmd.close 2]).auction.status ≠ "open" ∧
    runCoord spX ([Cmd.close 2] ++ [Cmd.bid "q" 50 100 3 4]) = runCoord spX [Cmd.close 2] ∧
    (runCoord spX [Cmd.close 2]).auction.placeBid "q" 50 100 3 =
      ((runCoord spX [Cmd.close 2]).auction, some .errAuctionClosed) := by
  have h := terminal_closure spX [Cmd.close 2] [Cmd.bid "q" 50 100 3 4] (by decide)
  exact ⟨by decide, h.1, h.2.1 "q" 50 100 3⟩

/-- C3: registering a player appends an event with version 1, but each
DKP award appends an event with hard-coded version 0, so the player
aggregate's stored versions read 1, 0, 0 — not the contiguous 1, 2, 3 the
version-contiguity invariant demands (on the real store the second
(aggregate, 0) pair additionally violates the unique version index). -/
theorem dkp_versions_not_contiguous :
    versions (loadAggregate dkpAward2.stored "pid1") = [1, 0, 0] ∧
    versions (loadAggregate dkpAward2.stored "pid1") ≠ iota1 3 ∧
    (dkpAward2.stored.map Event.type) =
      [EventType.playerRegistered, EventType.dkpAwarded, EventType.dkpAwarded] := by
  decide

/-- C4 counterexample: on a fresh auction the coordinator accepts a bid of
50, the event append fails, and PlaceBid still reports success while the
aggregate keeps the bid and the incremented version and the store is
unchanged — the in-memory mutation is not rolled back. -/
theorem bid_kept_after_failed_append :
    cexBidNoAppend.2.2 = none ∧
    cexBidNoAppend.1.bids ≠ cexStart.auction.bids ∧
    cexBidNoAppend.1.bids = [{ playerID := "p1", amount := 50, time := 5 }] ∧
    cexBidNoAppend.1.version = cexStart.auction.version + 1 ∧
    cexBidNoAppend.2.1 = cexStart.stored := by
  decide

/-- C4 (amended): when the aggregate accepts a bid and persisting the
pending event fails, the coordinator's PlaceBid still returns success, the
store is unchanged, and the aggregate keeps the appended bid and the
incremented version (the failure is only logged; there is no rollback). -/
theorem no_rollback_on_append_failure (a : Auction) (st : List Event) (p : String)
    (amt dkp now stamp : Int) (hacc : (a.placeBid p amt dkp now).2 = none) :
    (managerPlaceBid a st p amt dkp now stamp false).2.2 = none ∧
    (managerPlaceBid a st p amt dkp now stamp false).2.1 = st ∧
    (managerPlaceBid a st p amt dkp now stamp false).1.bids =
      a.bids ++ [{ playerID := p, amount := amt, time := now }] ∧
    (managerPlaceBid a st p amt dkp now stamp false).1.version = a.version + 1 := by
  rcases placeBid_shape a p amt dkp now with ⟨e, heq⟩ | ⟨heq, hopen, hguard⟩
  · rw [heq] at hacc
    cases hacc
  · simp [managerPlaceBid, heq, Auction.pushBid, Auction.recordEvent, Auction.pendingEvents]

/-- C4 amended witness: the accepted bid of 50 against the fresh auction
with a failing append. -/
theorem no_rollback_on_append_failure_witness :
    (managerPlaceBid cexStart.auction cexStart.stored "p1" 50 100 5 7 false).2.2 = none ∧
    (managerPlaceBid cexStart.auction cexStart.stored "p1" 50 100 5 7 false).2.1 =
      cexStart.stored ∧
    (managerPlaceBid cexStart.auction cexStart.stored "p1" 50 100 5 7 false).1.version =
      cexStart.auction.version + 1 := by
  have h := no_rollback_on_append_failure cexStart.auction cexStart.stored "p1" 50 100 5 7
    (by decide)
  exact ⟨h.1, h.2.1, h.2.2.2⟩

/-- C5 counterexample: on an open auction with minimum 10 whose highest
bid is (p1, 20), a bid of 5 (below the minimum) and a bid of 15 (at or
below the highest) both fail with the same error value ErrBidTooLow, so
below-minimum and not-outbidding are not distinct caller-visible kinds. -/
theorem same_error_for_low_and_not_outbidding :
    cexOutbid.status = "open" ∧
    cexOutbid.minBid = 10 ∧
    cexOutbid.highestBid.map Bid.amount = some 20 ∧
    (cexOutbid.placeBid "p2" 5 100 1).2 = some .errBidTooLow ∧
    (cexOutbid.placeBid "p2" 15 100 1).2 = some .errBidTooLow := by
  decide

/-- C5 (amended): the bidding failures map onto four distinct error
values: below-minimum and not-outbidding both yield ErrBidTooLow, being
the highest bidder yields ErrSelfOutbid, an amount above the balance
yields ErrInsufficientDKP, and a terminal auction yields ErrAuctionClosed. -/
theorem bid_error_kinds (a : Auction) (p : String) (amt dkp now : Int) :
    (a.status ≠ "open" → (a.placeBid p amt dkp now).2 = some .errAuctionClosed) ∧
    (a.status = "open" → amt < a.minBid →
      (a.placeBid p amt dkp now).2 = some .errBidTooLow) ∧
    (a.status = "open" → a.minBid ≤ amt → dkp < amt →
      (a.placeBid p amt dkp now).2 = some .errInsufficientDKP) ∧
    (a.status = "open" → a.minBid ≤ amt → amt ≤ dkp →
      ∀ b, a.bids.getLast? = some b →
        (b.playerID = p → (a.placeBid p amt dkp now).2 = some .errSelfOutbid) ∧
        (b.playerID ≠ p → amt ≤ b.amount →
          (a.placeBid p amt dkp now).2 = some .errBidTooLow)) := by
  refine ⟨?_, ?_, ?_, ?_⟩
  · intro hterm
    simp [Auction.placeBid, hterm]
  · intro hopen h2
    simp [Auction.placeBid, hopen, h2]
  · intro hopen h2 h3
    simp [Auction.placeBid, hopen, not_lt.mpr h2, h3]
  · intro hopen h2 h3 b hb
    constructor
    · intro hself
      simp [Auction.placeBid, Auction.highestBid, hopen, not_lt.mpr h2, not_lt.mpr h3,
        hb, hself]
    · intro hne h5
      simp [Auction.placeBid, Auction.highestBid, hopen, not_lt.mpr h2, not_lt.mpr h3,
        hb, hne, h5]

/-- C5 amended witness: the four error kinds observed on concrete bids
against the auction whose highest bid is (p1, 20). -/
theorem bid_error_kinds_witness :
    (cexOutbid.placeBid "p2" 5 100 1).2 = some .errBidTooLow ∧
    (cexOutbid.placeBid "p2" 200 100 1).2 = some .errInsufficientDKP ∧
    (cexOutbid.placeBid "p1" 30 100 1).2 = some .errSelfOutbid ∧
    (cexOutbid.placeBid "p2" 15 100 1).2 = some .errBidTooLow := by
  have h1 := (bid_error_kinds cexOutbid "p2" 5 100 1).2.1 (by decide) (by decide)
  have h2 := (bid_error_kinds cexOutbid "p2" 200 100 1).2.2.1 (by decide) (by decide)
    (by decide)
  have h3 := ((bid_error_kinds cexOutbid "p1" 30 100 1).2.2.2 (by decide) (by decide)
    (by decide) { playerID := "p1", amount := 20, time := 0 } (by decide)).1 (by decide)
  have h4 := ((bid_error_kinds cexOutbid "p2" 15 100 1).2.2.2 (by decide) (by decide)
    (by decide) { playerID := "p1", amount := 20, time := 0 } (by decide)).2 (by decide)
    (by decide)
  exact ⟨h1, h2, h3, h4⟩

/-- C9 counterexample: awarding 50 DKP with a failing event append still
updates the balance (10 to 60), stores no event, and reports success —
the operation is not aborted atomically. -/
theorem balance_kept_after_failed_event_append :
    (awardDKP dkpOnePlayer "pid1" 50 "raid" 2 false).2 = none ∧
    (awardDKP dkpOnePlayer "pid1" 50 "raid" 2 false).1.players.map Player.dkp = [60] ∧
    (awardDKP dkpOnePlayer "pid1" 50 "raid" 2 false).1.stored = dkpOnePlayer.stored := by
  decide

/-- C9 (amended): a balance-write failure aborts award and deduct with an
error before any event is appended, but an event-append failure is only
logged: the balance update remains visible and the operation returns
success. -/
theorem dkp_event_append_best_effort (st : DkpState) (pid : String) (amt : Int)
    (reason : String) (stamp : Int) :
    (updateDKP st.players pid amt = none →
      awardDKP st pid amt reason stamp false = (st, some "awarding DKP: player not found") ∧
      awardDKP st pid amt reason stamp true = (st, some "awarding DKP: player not found")) ∧
    (∀ ps2, updateDKP st.players pid amt = some ps2 →
      (awardDKP st pid amt reason stamp false).1.players = ps2 ∧
      (awardDKP st pid amt reason stamp false).1.stored = st.stored ∧
      (awardDKP st pid amt reason stamp false).2 = none) ∧
    (updateDKP st.players pid (-amt) = none →
      deductDKP st pid amt reason stamp false =
        (st, some "deducting DKP: player not found")) ∧
    (∀ ps2, updateDKP st.players pid (-amt) = some ps2 →
      (deductDKP st pid amt reason stamp false).1.players = ps2 ∧
      (deductDKP st pid amt reason stamp false).1.stored = st.stored ∧
      (deductDKP st pid amt reason stamp false).2 = none) := by
  refine ⟨?_, ?_, ?_, ?_⟩
  · intro h
    constructor <;> simp [awardDKP, h]
  · intro ps2 h
    refine ⟨?_, ?_, ?_⟩ <;> simp [awardDKP, h]
  · intro h
    simp [deductDKP, h]
  · intro ps2 h
    refine ⟨?_, ?_, ?_⟩ <;> simp [deductDKP, h]

/-- C9 amended witness: awarding 50 to the one-player world with a failing
append keeps the new balance, stores nothing, and succeeds. -/
theorem dkp_event_append_best_effort_witness :
    (awardDKP dkpOnePlayer "pid1" 50 "raid" 2 false).1.players =
      [{ id := "pid1", discordID := "d1", characterName := "Gandalf", dkp := 60 }] ∧
    (awardDKP dkpOnePlayer "pid1" 50 "raid" 2 false).1.stored = dkpOnePlayer.stored ∧
    (awardDKP dkpOnePlayer "pid1" 50 "raid" 2 false).2 = none := by
  have h := (dkp_event_append_best_effort dkpOnePlayer "pid1" 50 "raid" 2).2.1
    [{ id := "pid1", discordID := "d1", characterName := "Gandalf", dkp := 60 }]
    (by decide)
  exact ⟨h.1, h.2.1, h.2.2⟩

/-- C10: for an aggregate id with no stored events, Load returns the empty
sequence (and cannot fail), while replaying that aggregate returns the
no-events error instead of a default auction state. -/
theorem replay_unknown_aggregate (stored : List Event) (aggID : String)
    (h : ∀ e ∈ stored, e.aggregateID ≠ aggID) :
    loadAggregate stored aggID = [] ∧
    replayAuction stored aggID = Except.error "no events to replay" := by
  have hl : loadAggregate stored aggID = [] := by
    unfold loadAggregate
    rw [List.filter_eq_nil_iff]
    intro e he
    simp [h e he]
  refine ⟨hl, ?_⟩
  unfold replayAuction
  rw [hl]
  rfl

/-- C10 witness: an unknown auction id against the store holding the
events of auction a1. -/
theorem replay_unknown_aggregate_witness :
    loadAggregate cexRun.stored "no-such-auction" = [] ∧
    replayAuction cexRun.stored "no-such-auction" =
      Except.error "no events to replay" :=
  replay_unknown_aggregate cexRun.stored "no-such-auction" (by decide)
